import Mathlib

/-!
Verification development for the cover-resolution engine of the
sportscovers-data repository (the axios-based `src/fetchers.js`).

The JavaScript source is shallowly embedded:
* strings are Lean `String`s, with all computation performed on their
  underlying `List Char` (JS `toLowerCase`, `includes`, `startsWith`,
  `trim` are modelled character-by-character; the inputs of interest are
  ASCII, where the models coincide with the JS Unicode-aware versions);
* byte buffers (`Buffer`) are `List Nat` with values below 256;
* machine arithmetic is `Nat`/`Int` (the scores and sizes involved are
  far below 2^53, where JS doubles are exact);
* network I/O is abstracted into oracle parameters (`probe`, `dl`,
  `urlResolve`): a call either fails (`none`/an error value) or returns
  the data the JS code would read off the response;
* the filesystem is a finite map from paths to byte sizes, threaded
  explicitly through the download loop.
-/

namespace SportsCovers

/-! ### Character and string helpers (JS `includes`, `startsWith`, `toLowerCase`, `trim`) -/

/-- Is `pat` a contiguous sublist of `l`?  Models JS `String.prototype.includes`. -/
def isSubList (pat : List Char) : List Char → Bool
  | [] => pat.isEmpty
  | c :: rest => pat.isPrefixOf (c :: rest) || isSubList pat rest

/-- JS `s.includes(pat)` (case-sensitive). -/
def strContains (s pat : String) : Bool := isSubList pat.data s.data

/-- JS `l.includes(pat)` where `l` is an already-lowercased character list. -/
def containsL (l : List Char) (pat : String) : Bool := isSubList pat.data l

/-- JS `s.toLowerCase()`; ASCII lowering (the URLs and content types involved are ASCII). -/
def toLowerList (s : String) : List Char := s.data.map Char.toLower

/-- JS `s.startsWith(pat)` (case-sensitive). -/
def strStarts (s pat : String) : Bool := pat.data.isPrefixOf s.data

/-- JS `s.trim()`; strips leading/trailing whitespace. -/
def trimS (s : String) : String :=
  ⟨((s.data.dropWhile Char.isWhitespace).reverse.dropWhile Char.isWhitespace).reverse⟩

/-! ### Probe metadata and candidates (spec: `ProbeResult`, `Candidate`) -/

/-- Result of `probeImage`: sampled/declared byte total and sniffed dimensions.
`none` fields model JS `null`; a field holding `some 0` is still falsy in JS,
which the truthiness guards below account for. -/
structure ProbeMeta where
  bytes : Option Nat
  width : Option Nat
  height : Option Nat
deriving DecidableEq, Repr

/-- A harvested candidate: URL, optional referer, provenance tag. -/
structure Candidate where
  url : String
  referer : Option String
  source : String
deriving DecidableEq, Repr

/-- JS truthiness of an optional number: `undefined`/`null`/`0` are falsy. -/
def truthyNat : Option Nat → Bool
  | none => false
  | some n => n != 0

/-! ### The candidate scorer, `scoreCoverCandidate` (fetchers.js lines 467-506)

The JS function is a single additive chain; it is split here into one
definition per scoring rule, summed in the source's order.  All URL tests
run on the lowercased URL, exactly as in the source. -/

/-- JS `if (String(source).startsWith("today.json")) s += 200` -/
def sourceScore (source : String) : Int :=
  if strStarts source "today.json" then 200 else 0

/-- The non-cover URL patterns penalised by the scorer. -/
def badWords : List String :=
  ["logo", "favicon", "sprite", "icon", "avatar", "profile", "ads", "banner", "placeholder"]

/-- JS `if (bad.some((k) => lu.includes(k))) s -= 200` -/
def badScore (lu : List Char) : Int :=
  if badWords.any (fun k => containsL lu k) then -200 else 0

/-- The three URL hint bonuses (`img.kiosko.net` +120, `wp-content/uploads` +15,
`frontpage`/`portada`/`cover` +10). -/
def hintScore (lu : List Char) : Int :=
  (if containsL lu "img.kiosko.net" then 120 else 0) +
  (if containsL lu "wp-content/uploads" then 15 else 0) +
  (if containsL lu "frontpage" || containsL lu "portada" || containsL lu "cover" then 10 else 0)

/-- Byte-size tiers, guarded by JS truthiness of `meta?.bytes`. -/
def byteScore (bytes : Option Nat) : Int :=
  if truthyNat bytes then
    let b := bytes.getD 0
    if b > 900000 then 35
    else if b > 400000 then 25
    else if b > 150000 then 12
    else if b < 40000 then -20
    else 0
  else 0

/-- Dimension tiers, guarded by JS truthiness of `meta?.width && meta?.height`.
The JS aspect-ratio tests `aspect >= 0.5`, `aspect <= 0.85`, `aspect > 1.2`
(with `aspect = w / h` computed on doubles) are written as the exact integer
cross-multiplications `2*w >= h`, `20*w <= 17*h`, `5*w > 6*h`; no claim below
depends on inputs where double rounding could differ from the exact rationals. -/
def dimsScore (width height : Option Nat) : Int :=
  if truthyNat width && truthyNat height then
    let w := width.getD 0
    let h := height.getD 0
    (if w ≥ 900 ∧ h ≥ 1200 then 60
     else if w ≥ 700 ∧ h ≥ 900 then 40
     else if w ≥ 500 ∧ h ≥ 700 then 20
     else -30) +
    (if 2 * w ≥ h ∧ 20 * w ≤ 17 * h then 40
     else if 5 * w > 6 * h then -60 else 0) +
    (if w ≤ 320 ∨ h ≤ 320 then -100 else 0)
  else 0

/-- JS `if (lu.includes(".jpg") || lu.includes(".jpeg")) s += 5` -/
def extScore (lu : List Char) : Int :=
  if containsL lu ".jpg" || containsL lu ".jpeg" then 5 else 0

/-- JS `scoreCoverCandidate(url, meta, source)`: pure additive heuristic score. -/
def scoreCoverCandidate (url : String) (meta : Option ProbeMeta) (source : String) : Int :=
  let lu := toLowerList url
  sourceScore source + badScore lu + hintScore lu +
    byteScore (meta.bind ProbeMeta.bytes) +
    dimsScore (meta.bind ProbeMeta.width) (meta.bind ProbeMeta.height) +
    extScore lu

/-! ### The retrying HTTP client, `withRetry` (fetchers.js lines 258-272) -/

/-- A failed HTTP call. `status = none` models a connection-level failure with
no response object (`e?.response?.status` is `undefined`). -/
structure HttpFailure where
  status : Option Nat
deriving DecidableEq, Repr

/-- JS `const retriable = !status || status === 429 || (status >= 500 && status <= 599)`.
JS `!status` is true when the status is `undefined` (no response) or `0`. -/
def retriable : Option Nat → Bool
  | none => true
  | some s => decide (s = 0 ∨ s = 429 ∨ (500 ≤ s ∧ s ≤ 599))

/-- Body of `for (let i = 0; i < tries; i++)` in `withRetry`, with
`rem = tries - i` iterations remaining (so the recursion is structural and the
model evaluates by `rfl`).  `fn i` is the outcome of the `i`-th invocation of
the wrapped operation, `last` the saved last error, `sleeps` the backoff delays
performed so far.  Result: (outcome, delays slept, attempts made).  A thrown
`last` of `none` models the `throw undefined` reachable only when `tries = 0`. -/
def withRetryGo (fn : Nat → Except HttpFailure α) (tries base : Nat) :
    Nat → Nat → Option HttpFailure → List Nat →
    Except (Option HttpFailure) α × List Nat × Nat
  | 0, i, last, sleeps => (.error last, sleeps, i)
  | rem + 1, i, _last, sleeps =>
    match fn i with
    | .ok a => (.ok a, sleeps, i + 1)
    | .error e =>
      if retriable e.status = false ∨ i = tries - 1 then (.error (some e), sleeps, i + 1)
      else withRetryGo fn tries base rem (i + 1) (some e) (sleeps ++ [base * 2 ^ i])

/-- JS `withRetry(fn, { tries, baseDelayMs })`. -/
def withRetry (fn : Nat → Except HttpFailure α) (tries base : Nat) :
    Except (Option HttpFailure) α × List Nat × Nat :=
  withRetryGo fn tries base tries 0 none []

/-! ### Header sniffing (fetchers.js lines 371-421): JPEG and WebP -/

/-- Sniffed dimensions. -/
structure Dim where
  width : Nat
  height : Nat
deriving DecidableEq, Repr

/-- JS `buf[i]` with an explicit value `d` for the out-of-bounds case.  The JS code
never actually reads out of bounds; this is proved below by showing results do
not depend on `d`. -/
def byteAtD (d : Nat) (buf : List Nat) (i : Nat) : Nat := buf.getD i d

/-- JS `buf[i]` (in-bounds reads only). -/
def byteAt (buf : List Nat) (i : Nat) : Nat := byteAtD 0 buf i

/-- JS `buf.readUInt16BE(i)`. -/
def read16D (d : Nat) (buf : List Nat) (i : Nat) : Nat :=
  byteAtD d buf i * 256 + byteAtD d buf (i + 1)

/-- JS `buf.readUInt16BE(i)` (in-bounds reads only). -/
def read16 (buf : List Nat) (i : Nat) : Nat := read16D 0 buf i

/-- The Start-Of-Frame marker test of `getJpegSize`. -/
def isSOF (m : Nat) : Bool :=
  decide ((0xc0 ≤ m ∧ m ≤ 0xc3) ∨ (0xc5 ≤ m ∧ m ≤ 0xc7) ∨
          (0xc9 ≤ m ∧ m ≤ 0xcb) ∨ (0xcd ≤ m ∧ m ≤ 0xcf))

/-- The `while (i + 9 < buf.length)` marker walk of `getJpegSize`, with `fuel`
bounding the iteration count (the index grows by at least 1 per iteration, so
any `fuel ≥ buf.length` reproduces the JS loop exactly; see
`jpegLoopD_fuel_stable`). -/
def jpegLoopD (d : Nat) (buf : List Nat) : Nat → Nat → Option Dim
  | _, 0 => none
  | i, fuel + 1 =>
    if i + 9 < buf.length then
      if byteAtD d buf i ≠ 0xff then jpegLoopD d buf (i + 1) fuel
      else
        let marker := byteAtD d buf (i + 1)
        if marker = 0xd9 ∨ marker = 0xda then none
        else if i + 2 + 2 > buf.length then none
        else
          let len := read16D d buf (i + 2)
          if len = 0 ∨ i + 2 + len > buf.length then none
          else if isSOF marker = true ∧ i + 2 + 7 < buf.length then
            some ⟨read16D d buf (i + 2 + 5), read16D d buf (i + 2 + 3)⟩
          else jpegLoopD d buf (i + 2 + len) fuel
    else none

/-- JS `getJpegSize(buf)` with explicit out-of-bounds default `d`. -/
def getJpegSizeD (d : Nat) (buf : List Nat) : Option Dim :=
  if buf.length < 4 then none
  else if byteAtD d buf 0 ≠ 0xff ∨ byteAtD d buf 1 ≠ 0xd8 then none
  else jpegLoopD d buf 2 buf.length

/-- JS `getJpegSize(buf)` (fetchers.js lines 371-405). -/
def getJpegSize (buf : List Nat) : Option Dim := getJpegSizeD 0 buf

/-- Node `buf.slice(a, b).toString("ascii")`: ascii decoding strips the high
bit of every byte. -/
def asciiSlice (buf : List Nat) (a b : Nat) : List Nat :=
  ((buf.drop a).take (b - a)).map (fun x => x % 128)

/-- Code points of an ASCII tag literal, for comparison with `asciiSlice`. -/
def tagBytes (s : String) : List Nat := s.data.map Char.toNat

/-- The `for (let i = 12; i + 16 < buf.length; i++)` chunk scan of
`getWebpSize`; `fuel ≥ buf.length` reproduces the JS loop exactly.  The
width/height expressions are the JS `1 + (b0 | (b1 << 8) | (b2 << 16))`
24-bit little-endian reads (all operands are below 2^24, where JS 32-bit
bitwise-or is exact). -/
def webpLoop (buf : List Nat) : Nat → Nat → Option Dim
  | _, 0 => none
  | i, fuel + 1 =>
    if i + 16 < buf.length then
      if asciiSlice buf i (i + 4) = tagBytes "VP8X" ∧ i + 14 < buf.length then
        some ⟨1 + (byteAt buf (i + 8) ||| (byteAt buf (i + 9) <<< 8) ||| (byteAt buf (i + 10) <<< 16)),
              1 + (byteAt buf (i + 11) ||| (byteAt buf (i + 12) <<< 8) ||| (byteAt buf (i + 13) <<< 16))⟩
      else webpLoop buf (i + 1) fuel
    else none

/-- JS `getWebpSize(buf)` (fetchers.js lines 407-421). -/
def getWebpSize (buf : List Nat) : Option Dim :=
  if buf.length < 30 then none
  else if asciiSlice buf 0 4 ≠ tagBytes "RIFF" then none
  else if asciiSlice buf 8 12 ≠ tagBytes "WEBP" then none
  else webpLoop buf 12 buf.length

/-! ### `extractKioskoDateFromUrl` (fetchers.js lines 347-352) -/

/-- Match exactly `n` regex `\d` digits, returning them and the rest. -/
def takeDigits : Nat → List Char → Option (List Char × List Char)
  | 0, rest => some ([], rest)
  | _ + 1, [] => none
  | n + 1, c :: rest =>
    if c.isDigit then (takeDigits n rest).map (fun p => (c :: p.1, p.2)) else none

/-- Try `/img\.kiosko\.net\/(\d{4})\/(\d{2})\/(\d{2})\//i` anchored at the head
of `l`; on success return the `YYYY-MM-DD` string the JS code assembles from
the capture groups.  The `i` flag makes the literal part case-insensitive. -/
def kioskoMatchAt (l : List Char) : Option String :=
  let pat := "img.kiosko.net/".data
  if (l.take pat.length).map Char.toLower = pat then
    match takeDigits 4 (l.drop pat.length) with
    | some (y, '/' :: r1) =>
      (match takeDigits 2 r1 with
       | some (mo, '/' :: r2) =>
         (match takeDigits 2 r2 with
          | some (da, '/' :: _) => some ⟨y ++ '-' :: mo ++ '-' :: da⟩
          | _ => none)
       | _ => none)
    | _ => none
  else none

/-- Leftmost-match scan for the regex above (JS `String.prototype.match`). -/
def kioskoScan : List Char → Option String
  | [] => none
  | c :: rest =>
    match kioskoMatchAt (c :: rest) with
    | some s => some s
    | none => kioskoScan rest

/-- JS `extractKioskoDateFromUrl(u)`. -/
def extractKioskoDateFromUrl (u : String) : Option String := kioskoScan u.data

/-- JS `kioskoDate && kioskoDate !== dateStr`: an extracted URL date exists and
differs from the requested date. -/
def kioskoDateMismatch (url dateStr : String) : Bool :=
  match extractKioskoDateFromUrl url with
  | some kd => kd != dateStr
  | none => false

/-- The strict kiosko date check guarding both the curated harvester
(fetchers.js 897-900) and the final download loop (1107-1110): the URL
contains `img.kiosko.net` (case-sensitively) and its embedded date differs. -/
def skipStrictDate (url dateStr : String) : Bool :=
  strContains url "img.kiosko.net" && kioskoDateMismatch url dateStr

/-! ### `normalizeUrl` and the curated-override harvester (fetchers.js 282-293, 877-911) -/

/-- JS `normalizeUrl(raw, baseUrl)`.  The `new URL(s, baseUrl).href` branch (WHATWG
relative-URL resolution, library code outside this repository) is abstracted as
the oracle `urlResolve`, returning `none` when the constructor would throw. -/
def normalizeUrl (urlResolve : String → String → Option String)
    (raw baseUrl : String) : Option String :=
  if raw = "" then none
  else
    let s := trimS raw
    if s = "" then none
    else if strStarts s "//" then some ("https:" ++ s)
    else if strStarts s "http://" || strStarts s "https://" then some s
    else urlResolve s baseUrl

/-- A record parsed out of `today.json` (the fields `fetchCoverFromTodayJson`
reads; `sourceUrl = none` models a missing field). -/
structure TodayHit where
  publisherId : String
  date : String
  sourceUrl : Option String
deriving DecidableEq, Repr

/-- JS `fetchCoverFromTodayJson(publisherId, dateStr, outputDir)` with its I/O
abstracted: `items` is the parsed store content, `probe` the `probeImage`
oracle (`none` = the probe threw), `todayPath` the resolved store path and
`todayPathRel` its form relative to the working directory. -/
def fetchCoverFromTodayJson (urlResolve : String → String → Option String)
    (probe : String → Option ProbeMeta) (items : List TodayHit)
    (publisherId dateStr todayPath todayPathRel : String) : Option Candidate :=
  match items.find? (fun x => x.publisherId == publisherId && x.date == dateStr) with
  | none => none
  | some hit =>
    match hit.sourceUrl with
    | none => none
    | some su =>
      if su = "" then none  -- `!hit?.sourceUrl`: the empty string is falsy
      else
        match normalizeUrl urlResolve su "https://img.kiosko.net/" with
        | none => none
        | some imgUrl =>
          if skipStrictDate imgUrl dateStr then none
          else
            match probe imgUrl with
            | none => none
            | some meta =>
              if scoreCoverCandidate imgUrl (some meta) ("today.json:" ++ todayPath) < 90
              then none
              else some ⟨imgUrl, none, "today.json:" ++ todayPathRel⟩

/-! ### `uniqueByUrl` (fetchers.js 319-327) -/

/-- The filter pass of `uniqueByUrl`, with the `seen` set made explicit.
`none` entries and empty URLs are dropped by the `!x?.url` guard. -/
def uniqueByUrlGo (seen : List String) : List (Option Candidate) → List Candidate
  | [] => []
  | none :: rest => uniqueByUrlGo seen rest
  | some c :: rest =>
    if c.url = "" then uniqueByUrlGo seen rest
    else if c.url ∈ seen then uniqueByUrlGo seen rest
    else c :: uniqueByUrlGo (c.url :: seen) rest

/-- JS `uniqueByUrl(list)`. -/
def uniqueByUrl (list : List (Option Candidate)) : List Candidate := uniqueByUrlGo [] list

/-! ### Ranking, download and the orchestrator (fetchers.js 508-541, 1059-1147) -/

/-- JS `rankCandidates(candidates)`: re-probe every candidate (probe failures drop
it), score uniformly, sort by descending score.  JS `Array.prototype.sort` is
stable; `List.insertionSort` with the non-strict descending relation is the
matching stable sort. -/
def rankCandidates (probe : String → Option ProbeMeta) (cands : List Candidate) :
    List Candidate :=
  let ranked := cands.filterMap (fun c =>
    (probe c.url).map (fun m => (c, scoreCoverCandidate c.url (some m) c.source)))
  (List.insertionSort (fun a b => b.2 ≤ a.2) ranked).map Prod.fst

/-- Outcome of the (retried) HTTP GET inside `downloadImage`: a failure with
its message, or a 200 response with (lowercasable) content type and the total
byte size of the streamed body. -/
inductive DlOutcome
  | err (msg : String)
  | resp (contentType : String) (bodyLen : Nat)
deriving DecidableEq, Repr

/-- The filesystem: a finite map from paths to file byte sizes. -/
abbrev FsState := List (String × Nat)

/-- Size of the file at `p`, if any. -/
def fsGet (st : FsState) (p : String) : Option Nat :=
  (st.find? (fun e => e.1 == p)).map Prod.snd

/-- JS `fs.createWriteStream(p)` + full pipeline: (over)writes the file at `p`. -/
def fsWrite (st : FsState) (p : String) (sz : Nat) : FsState :=
  (p, sz) :: st.filter (fun e => e.1 != p)

/-- JS `fs.renameSync(src, dst)`. -/
def fsRename (st : FsState) (src dst : String) : FsState :=
  match fsGet st src with
  | none => st
  | some sz => fsWrite (st.filter (fun e => e.1 != src)) dst sz

/-- JS `downloadImage(url, filepath, referer)` (fetchers.js 517-541): `out` stands
for the retried GET outcome.  The content-type checks run before anything is
written; the body is streamed to `filepath` before the size check, so a
too-small body leaves the written file behind when the error is thrown. -/
def downloadImage (out : DlOutcome) (filepath : String) (st : FsState) :
    FsState × Except String String :=
  match out with
  | .err m => (st, .error m)
  | .resp ct0 len =>
    let ct : List Char := toLowerList ct0
    if ¬ ("image/".data.isPrefixOf ct) then
      (st, .error ("Download not image (ct=" ++ String.mk ct ++ ")"))
    else if containsL ct "svg" then (st, .error "SVG rejected")
    else
      let st2 := fsWrite st filepath len
      if len < 8000 then (st2, .error ("Downloaded too small (" ++ toString len ++ ")"))
      else (st2, .ok (String.mk ct))

/-- JS `url.split("?")[0]`. -/
def beforeQuery (u : String) : String := ⟨u.data.takeWhile (fun c => c ≠ '?')⟩

/-- Node `path.extname`: extension of the final path segment, empty when there
is no dot or the only dot is the segment's first character. -/
def extname (p : String) : String :=
  let base := (p.data.reverse.takeWhile (fun c => c ≠ '/')).reverse
  let k := (base.reverse.takeWhile (fun c => c ≠ '.')).length
  if k = base.length then ""
  else if base.length - k - 1 = 0 then ""
  else ⟨base.drop (base.length - k - 1)⟩

/-- JS `extFromContentType(contentType)` (fetchers.js 508-515). -/
def extFromContentType (contentType : String) : String :=
  let ct := toLowerList (trimS ⟨contentType.data.takeWhile (fun c => c ≠ ';')⟩)
  if ct = "image/jpeg".data then ".jpg"
  else if ct = "image/png".data then ".png"
  else if ct = "image/webp".data then ".webp"
  else if ct = "image/avif".data then ".avif"
  else ".jpg"

/-- Success value of `fetchCover`. -/
structure FetchOk where
  url : String
  localFile : String
  source : String
deriving DecidableEq, Repr

/-- Message `Cover not found for [id] ([date])` (fetchers.js 1097). -/
def coverNotFoundMsg (pid dateStr : String) : String :=
  "Cover not found for " ++ pid ++ " (" ++ dateStr ++ ")"

/-- Message `All candidates invalid for [id] ([date])` (fetchers.js 1100). -/
def allInvalidMsg (pid dateStr : String) : String :=
  "All candidates invalid for " ++ pid ++ " (" ++ dateStr ++ ")"

/-- Message `All candidate downloads failed for [id] ([date]): [lastErr]` (fetchers.js
1144-1146); when no download was ever attempted `lastErr` is `null` and JS
prints `String(null) = "null"`. -/
def allFailedMsg (pid dateStr : String) (lastMsg : Option String) : String :=
  "All candidate downloads failed for " ++ pid ++ " (" ++ dateStr ++ "): " ++
    (match lastMsg with | some m => m | none => "null")

/-- The ranked-candidate download loop of `fetchCover` (fetchers.js 1102-1146):
strict-date skips leave `lastMsg` untouched; a failed download records its
message; the first success renames the temporary file when its name differs
from the final one and returns.  The post-success today.json upsert is
modelled separately by `upsertTodayJsonEntry`. -/
def fetchCoverLoop (dl : String → DlOutcome) (pid dateStr outputDir : String) :
    List Candidate → FsState → Option String → FsState × Except String FetchOk
  | [], st, lastMsg => (st, .error (allFailedMsg pid dateStr lastMsg))
  | c :: rest, st, lastMsg =>
    if skipStrictDate c.url dateStr then
      fetchCoverLoop dl pid dateStr outputDir rest st lastMsg
    else
      let urlExt := extname (beforeQuery c.url)
      let tmpPath := outputDir ++ "/" ++ dateStr ++ "-medium" ++
        (if urlExt = "" then ".img" else urlExt)
      match downloadImage (dl c.url) tmpPath st with
      | (st2, .error m) => fetchCoverLoop dl pid dateStr outputDir rest st2 (some m)
      | (st2, .ok ct) =>
        let finalExt := if urlExt = "" then extFromContentType ct else urlExt
        let finalFilename := dateStr ++ "-medium" ++ finalExt
        let finalPath := outputDir ++ "/" ++ finalFilename
        let st3 := if tmpPath ≠ finalPath then fsRename st2 tmpPath finalPath else st2
        (st3, .ok ⟨c.url, finalFilename, c.source⟩)

/-- The failure message `downloadImage` yields for a download outcome (`none`
when the download succeeds); the message does not depend on the filesystem
state or the target path. -/
def dlFailMsg : DlOutcome → Option String
  | .err m => some m
  | .resp ct0 len =>
    let ct : List Char := toLowerList ct0
    if ¬ ("image/".data.isPrefixOf ct) then
      some ("Download not image (ct=" ++ String.mk ct ++ ")")
    else if containsL ct "svg" then some "SVG rejected"
    else if len < 8000 then some ("Downloaded too small (" ++ toString len ++ ")")
    else none

/-- The last underlying failure cause the download loop records when every
attempted download fails: the failure message of the last non-skipped
candidate, else the incoming `lastMsg`. -/
def lastCause (dl : String → DlOutcome) (dateStr : String)
    (cands : List Candidate) (lastMsg : Option String) : Option String :=
  match (cands.filter (fun c => !(skipStrictDate c.url dateStr))).getLast? with
  | some c => dlFailMsg (dl c.url)
  | none => lastMsg

/-- JS `fetchCover(publisher, dateStr, outputDir, allPublishers)` after alias
resolution, with the harvester stage abstracted: `harvested` lists the six
`safe(...)` harvester results in source order, `probe` drives the authoritative
ranking pass, `dl` the downloads. -/
def fetchCover (probe : String → Option ProbeMeta) (dl : String → DlOutcome)
    (pid dateStr outputDir : String) (harvested : List (Option Candidate))
    (st : FsState) : FsState × Except String FetchOk :=
  let rawCandidates := uniqueByUrl harvested
  if rawCandidates.length = 0 then (st, .error (coverNotFoundMsg pid dateStr))
  else
    let candidates := rankCandidates probe rawCandidates
    if candidates.length = 0 then (st, .error (allInvalidMsg pid dateStr))
    else fetchCoverLoop dl pid dateStr outputDir candidates st none

/-! ### `upsertTodayJsonEntry` (fetchers.js 800-841) -/

/-- The publisher fields `upsertTodayJsonEntry` reads. -/
structure Publisher where
  id : String
  name : String
  country : String
  groupLabel : String
deriving DecidableEq, Repr

/-- A persisted `today.json` entry. -/
structure TodayEntry where
  id : String
  publisherId : String
  publisherName : String
  country : String
  groupLabel : String
  date : String
  imageMediumUrl : String
  sourceUrl : String
  scrapedAt : String
deriving DecidableEq, Repr

/-- Code-point lexicographic order on character lists; `localeCompare` coincides
with it on the repository's all-lowercase-ASCII publisher ids. -/
def charListLe : List Char → List Char → Bool
  | [], _ => true
  | _ :: _, [] => false
  | a :: as, b :: bs => if a = b then charListLe as bs else decide (a < b)

/-- The sort relation of `arr.sort((a, b) => String(a.publisherId).localeCompare(String(b.publisherId)))`. -/
def pubLe (a b : TodayEntry) : Prop := charListLe a.publisherId.data b.publisherId.data = true

instance : DecidableRel pubLe := fun a b => by unfold pubLe; infer_instance

/-- JS `upsertTodayJsonEntry({ publisher, dateStr, localFile, sourceUrl })`: the
pure array transformation between the store read and the store write.  `arr` is
the parsed previous content, `now` the `new Date().toISOString()` timestamp.
JS `Array.prototype.sort` is stable; `List.insertionSort` matches. -/
def upsertTodayJsonEntry (arr : List TodayEntry) (publisher : Publisher)
    (dateStr localFile sourceUrl now : String) : List TodayEntry :=
  let countryLower : String := ⟨toLowerList publisher.country⟩
  let entry : TodayEntry :=
    { id := publisher.id ++ "-" ++ dateStr
      publisherId := publisher.id
      publisherName := publisher.name
      country := publisher.country
      groupLabel := publisher.groupLabel
      date := dateStr
      imageMediumUrl := "./data/images/" ++ countryLower ++ "/" ++ publisher.id ++ "/" ++ localFile
      sourceUrl := sourceUrl
      scrapedAt := now }
  let arr2 := (arr.filter (fun x => !(x.publisherId == publisher.id && x.date == dateStr))) ++ [entry]
  List.insertionSort pubLe arr2

/-! ### Concrete fixtures used by witnesses and counterexamples -/

/-- A probe oracle reporting a large, portrait, well-sized image for every URL. -/
def probeFix : String → Option ProbeMeta := fun _ => some ⟨some 1000000, some 1000, some 1300⟩

/-- A download oracle: every URL yields a fully-downloaded JPEG of 7000 bytes,
below the 8000-byte validation floor. -/
def dlTooSmall : String → DlOutcome := fun _ => .resp "image/jpeg" 7000

/-- A download oracle: every URL yields an HTML error page. -/
def dlNotImage : String → DlOutcome := fun _ => .resp "text/html" 100

/-- One harvested candidate whose URL carries a `.jpg` extension. -/
def harvOneJpg : List (Option Candidate) :=
  [some ⟨"https://cdn.example.com/cover.jpg", none, "frontpages.com"⟩]

/-- Two harvested candidates with distinct URLs. -/
def harvTwoJpg : List (Option Candidate) :=
  [some ⟨"https://a.example/x.jpg", none, "kiosko.net(direct)"⟩,
   some ⟨"https://b.example/y.jpg", none, "frontpages.com"⟩]

/-- Attempt outcomes: server error, then rate-limited, then success. -/
def fnRetryFix : Nat → Except HttpFailure Nat
  | 0 => .error ⟨some 500⟩
  | 1 => .error ⟨some 429⟩
  | _ => .ok 42

/-- A minimal RIFF/WEBP container with a VP8X chunk at offset 12; the stored
24-bit little-endian fields are 287 and 559. -/
def wbufFix : List Nat :=
  [0x52, 0x49, 0x46, 0x46, 0, 0, 0, 0, 0x57, 0x45, 0x42, 0x50,
   0x56, 0x50, 0x38, 0x58, 0, 0, 0, 0, 0x1F, 0x01, 0x00, 0x2F, 0x02, 0x00, 0, 0, 0, 0]

/-- A minimal JPEG: SOI, then an SOF0 segment declaring height 256 and width 512. -/
def jbufFix : List Nat :=
  [0xff, 0xd8, 0xff, 0xc0, 0x00, 0x11, 0x08, 0x01, 0x00, 0x02, 0x00,
   0, 0, 0, 0, 0, 0, 0, 0, 0, 0, 0]

/-- A curated record whose URL spells the kiosko CDN host in uppercase and
embeds the date 2025-12-19. -/
def itemsUpperFix : List TodayHit :=
  [⟨"marca", "2025-12-20", some "https://IMG.KIOSKO.NET/2025/12/19/es/marca.750.jpg"⟩]

/-- The same curated record with the CDN host in lowercase. -/
def itemsLowerFix : List TodayHit :=
  [⟨"marca", "2025-12-20", some "https://img.kiosko.net/2025/12/19/es/marca.750.jpg"⟩]

/-- A small pre-existing store content with one entry for another publisher. -/
def arrFix : List TodayEntry :=
  [⟨"as-2025-12-20", "as", "AS", "ES", "", "2025-12-20", "x", "y", "t"⟩]

/-- The publisher of the upsert fixture. -/
def pubFix : Publisher := ⟨"marca", "Marca", "ES", ""⟩

/-! ## Theorems -/

/-! ### Shared helper lemmas -/

theorem byteScore_mono (b1 b2 : Nat) (h1 : 0 < b1) (h12 : b1 ≤ b2) :
    byteScore (some b1) ≤ byteScore (some b2) := by
  have t1 : truthyNat (some b1) = true := by simp [truthyNat]; omega
  have t2 : truthyNat (some b2) = true := by simp [truthyNat]; omega
  simp only [byteScore, t1, if_true, t2, Option.getD_some]
  split_ifs <;> omega

theorem logo_in_badWords (lu : List Char) (h : containsL lu "logo" = true) :
    badWords.any (fun k => containsL lu k) = true :=
  List.any_eq_true.mpr ⟨"logo", by simp [badWords], h⟩

/-- C5: Score monotonicity in byte size.  Two candidates identical in URL,
source tag, width and height, whose byte sizes are both at or above the
8000-byte plausibility floor, score in the order of their byte sizes. -/
theorem score_monotone_in_bytes (url source : String) (w h : Option Nat) (b1 b2 : Nat)
    (hfloor : 8000 ≤ b1) (hle : b1 ≤ b2) :
    scoreCoverCandidate url (some ⟨some b1, w, h⟩) source ≤
      scoreCoverCandidate url (some ⟨some b2, w, h⟩) source := by
  have hmono := byteScore_mono b1 b2 (by omega) hle
  simp only [scoreCoverCandidate, Option.some_bind]
  omega

/-- Witness for C5 at a concrete input. -/
theorem score_monotone_in_bytes_witness :
    scoreCoverCandidate "u" (some ⟨some 10000, none, none⟩) "" ≤
      scoreCoverCandidate "u" (some ⟨some 999999, none, none⟩) "" :=
  score_monotone_in_bytes "u" "" none none 10000 999999 (by norm_num) (by norm_num)

/-- C6 counterexample: inserting `logo` into a URL that already matches another
non-cover pattern (`icon`) does not lower its score — the −200 penalty is
applied once for the whole pattern list — so the logo-bearing URL does NOT
score strictly below the otherwise identical URL without `logo`. -/
theorem logo_penalty_counterexample :
    scoreCoverCandidate "https://e.com/logoicon.png"
        (some ⟨some 500000, some 1000, some 1300⟩) "s" =
      scoreCoverCandidate "https://e.com/icon.png"
        (some ⟨some 500000, some 1000, some 1300⟩) "s" ∧
    ¬ (scoreCoverCandidate "https://e.com/logoicon.png"
        (some ⟨some 500000, some 1000, some 1300⟩) "s" <
       scoreCoverCandidate "https://e.com/icon.png"
        (some ⟨some 500000, some 1000, some 1300⟩) "s") := by
  exact ⟨by decide, by decide⟩

/-- C6 amended: a URL containing `logo` scores strictly below an otherwise
identical URL without it — identical in every other URL feature the scorer
reads — provided the logo-free URL matches no pattern of the penalty list. -/
theorem logo_penalty_amended (u1 u2 : String) (meta : Option ProbeMeta) (source : String)
    (hlogo : containsL (toLowerList u1) "logo" = true)
    (hclean : badWords.any (fun k => containsL (toLowerList u2) k) = false)
    (hk : containsL (toLowerList u1) "img.kiosko.net" =
      containsL (toLowerList u2) "img.kiosko.net")
    (hwp : containsL (toLowerList u1) "wp-content/uploads" =
      containsL (toLowerList u2) "wp-content/uploads")
    (hfpc : (containsL (toLowerList u1) "frontpage" || containsL (toLowerList u1) "portada" ||
        containsL (toLowerList u1) "cover") =
      (containsL (toLowerList u2) "frontpage" || containsL (toLowerList u2) "portada" ||
        containsL (toLowerList u2) "cover"))
    (hext : (containsL (toLowerList u1) ".jpg" || containsL (toLowerList u1) ".jpeg") =
      (containsL (toLowerList u2) ".jpg" || containsL (toLowerList u2) ".jpeg")) :
    scoreCoverCandidate u1 meta source < scoreCoverCandidate u2 meta source := by
  have hbad1 : badScore (toLowerList u1) = -200 := by
    unfold badScore
    rw [if_pos (logo_in_badWords _ hlogo)]
  have hbad2 : badScore (toLowerList u2) = 0 := by
    unfold badScore
    rw [if_neg (by simp [hclean])]
  have hh : hintScore (toLowerList u1) = hintScore (toLowerList u2) := by
    unfold hintScore
    rw [hk, hwp, hfpc]
  have he : extScore (toLowerList u1) = extScore (toLowerList u2) := by
    unfold extScore
    rw [hext]
  simp only [scoreCoverCandidate]
  omega

/-- Witness for the amended C6 at a concrete input. -/
theorem logo_penalty_amended_witness :
    scoreCoverCandidate "https://e.com/logoa.jpg" none "" <
      scoreCoverCandidate "https://e.com/a.jpg" none "" :=
  logo_penalty_amended "https://e.com/logoa.jpg" "https://e.com/a.jpg" none ""
    (by decide) (by decide) (by decide) (by decide) (by decide) (by decide)

/-! ### C9: deduplication -/

theorem uniqueByUrlGo_nodup (l : List (Option Candidate)) : ∀ seen : List String,
    ((uniqueByUrlGo seen l).map Candidate.url).Nodup ∧
    (∀ u ∈ (uniqueByUrlGo seen l).map Candidate.url, u ∉ seen) := by
  induction l with
  | nil => intro seen; exact ⟨List.nodup_nil, by simp [uniqueByUrlGo]⟩
  | cons x rest ih =>
    intro seen
    match x with
    | none => simpa [uniqueByUrlGo] using ih seen
    | some c =>
      by_cases hempty : c.url = ""
      · simpa [uniqueByUrlGo, hempty] using ih seen
      · by_cases hseen : c.url ∈ seen
        · simpa [uniqueByUrlGo, hempty, hseen] using ih seen
        · have ihm := ih (c.url :: seen)
          refine ⟨?_, ?_⟩
          · simp only [uniqueByUrlGo, if_neg hempty, if_neg hseen, List.map_cons,
              List.nodup_cons]
            exact ⟨fun hmem => (ihm.2 c.url hmem) (List.mem_cons_self _ _), ihm.1⟩
          · intro u hu
            simp only [uniqueByUrlGo, if_neg hempty, if_neg hseen, List.map_cons,
              List.mem_cons] at hu
            rcases hu with rfl | hu
            · exact hseen
            · intro hus
              exact (ihm.2 u hu) (List.mem_cons_of_mem _ hus)

/-- C9: the orchestrator deduplicates candidates by URL before the ranking
pass (in `fetchCover`, `rankCandidates` runs on `uniqueByUrl harvested`):
the deduplicated list never repeats a URL, and the concrete list
`[{url A}, {url A}, {url B}]` reduces to exactly 2 candidates. -/
theorem dedup_before_ranking (l : List (Option Candidate)) :
    ((uniqueByUrl l).map Candidate.url).Nodup ∧
    (uniqueByUrl [some ⟨"A", none, "s1"⟩, some ⟨"A", none, "s2"⟩,
      some ⟨"B", none, "s3"⟩]).length = 2 := by
  exact ⟨(uniqueByUrlGo_nodup l []).1, by decide⟩

/-! ### C10: the curated-store upsert invariant -/

theorem charListLe_total : ∀ a b, charListLe a b = true ∨ charListLe b a = true := by
  intro a
  induction a with
  | nil => intro b; left; rfl
  | cons x xs ih =>
    intro b
    cases b with
    | nil => right; rfl
    | cons y ys =>
      by_cases hxy : x = y
      · subst hxy
        rcases ih ys with h | h
        · left; simpa [charListLe] using h
        · right; simpa [charListLe] using h
      · rcases lt_or_gt_of_ne (show x ≠ y from hxy) with h | h
        · left; simp [charListLe, hxy, h]
        · right; simp [charListLe, Ne.symm hxy, not_lt_of_gt h, h]

theorem charListLe_trans : ∀ a b c, charListLe a b = true → charListLe b c = true →
    charListLe a c = true := by
  intro a
  induction a with
  | nil => intros; rfl
  | cons x xs ih =>
    intro b c hab hbc
    cases b with
    | nil => simp [charListLe] at hab
    | cons y ys =>
      cases c with
      | nil => simp [charListLe] at hbc
      | cons z zs =>
        by_cases hxy : x = y <;> by_cases hyz : y = z
        · subst hxy; subst hyz
          simp [charListLe] at hab hbc ⊢
          exact ih ys zs hab hbc
        · subst hxy
          simp [charListLe, hyz] at hbc ⊢
          simp [hyz, hbc]
        · subst hyz
          simp [charListLe, hxy] at hab ⊢
          simp [hxy, hab]
        · simp [charListLe, hxy, hyz] at hab hbc ⊢
          have hxz : x < z := lt_trans hab hbc
          simp [ne_of_lt hxz, hxz]

instance : IsTotal TodayEntry pubLe :=
  ⟨fun a b => charListLe_total a.publisherId.data b.publisherId.data⟩

instance : IsTrans TodayEntry pubLe := ⟨fun _ _ _ hab hbc => charListLe_trans _ _ _ hab hbc⟩

/-- Two store entries differ in their (publisherId, date) key. -/
theorem distinct_key_symm {x y : TodayEntry}
    (h : ¬ (x.publisherId = y.publisherId ∧ x.date = y.date)) :
    ¬ (y.publisherId = x.publisherId ∧ y.date = x.date) := by
  intro hc
  exact h ⟨hc.1.symm, hc.2.symm⟩

/-- C10: after an upsert, the store array contains exactly one entry keyed by
the upserted (publisherId, date); pairwise-distinct keys are preserved (the new
entry replaces any existing entry with the same key); and the stored array is
sorted ascending by publisherId (localeCompare modelled as code-point order,
which coincides on the repository's lowercase-ASCII publisher ids). -/
theorem upsert_store_invariant (arr : List TodayEntry) (publisher : Publisher)
    (dateStr localFile sourceUrl now : String) :
    ((upsertTodayJsonEntry arr publisher dateStr localFile sourceUrl now).countP
      (fun x => x.publisherId == publisher.id && x.date == dateStr) = 1) ∧
    (arr.Pairwise (fun x y => ¬ (x.publisherId = y.publisherId ∧ x.date = y.date)) →
      (upsertTodayJsonEntry arr publisher dateStr localFile sourceUrl now).Pairwise
        (fun x y => ¬ (x.publisherId = y.publisherId ∧ x.date = y.date))) ∧
    (upsertTodayJsonEntry arr publisher dateStr localFile sourceUrl now).Pairwise pubLe := by
  unfold upsertTodayJsonEntry
  set entry : TodayEntry :=
    { id := publisher.id ++ "-" ++ dateStr
      publisherId := publisher.id
      publisherName := publisher.name
      country := publisher.country
      groupLabel := publisher.groupLabel
      date := dateStr
      imageMediumUrl := "./data/images/" ++ (⟨toLowerList publisher.country⟩ : String) ++
        "/" ++ publisher.id ++ "/" ++ localFile
      sourceUrl := sourceUrl
      scrapedAt := now } with hentry
  set arr2 := (arr.filter
    (fun x => !(x.publisherId == publisher.id && x.date == dateStr))) ++ [entry] with harr2
  have hperm : (List.insertionSort pubLe arr2).Perm arr2 := List.perm_insertionSort pubLe arr2
  have hfilter_zero : (arr.filter
      (fun x => !(x.publisherId == publisher.id && x.date == dateStr))).countP
      (fun x => x.publisherId == publisher.id && x.date == dateStr) = 0 := by
    rw [List.countP_eq_zero]
    intro a ha
    have hmem := List.of_mem_filter ha
    simp at hmem ⊢
    tauto
  refine ⟨?_, ?_, ?_⟩
  · rw [hperm.countP_eq, harr2, List.countP_append, hfilter_zero]
    simp [hentry]
  · intro hpre
    rw [List.Perm.pairwise_iff distinct_key_symm hperm]
    rw [harr2, List.pairwise_append]
    refine ⟨List.Pairwise.sublist (List.filter_sublist arr) hpre, by simp, ?_⟩
    intro a ha b hb
    have hane := List.of_mem_filter ha
    have hb1 : b = entry := by simpa using hb
    subst hb1
    simp only [Bool.not_eq_true', Bool.and_eq_false_iff] at hane
    intro hc
    rcases hane with h1 | h1 <;> simp [hentry] at hc <;> simp_all
  · exact List.sorted_insertionSort pubLe arr2

/-- Witness for C10 at a concrete input (a store holding one entry for another
publisher, distinct keys discharged by evaluation). -/
theorem upsert_store_invariant_witness :
    (upsertTodayJsonEntry arrFix pubFix "2025-12-20" "2025-12-20-medium.jpg"
      "https://img.kiosko.net/2025/12/20/es/marca.750.jpg" "now").Pairwise
      (fun x y => ¬ (x.publisherId = y.publisherId ∧ x.date = y.date)) :=
  (upsert_store_invariant arrFix pubFix "2025-12-20" "2025-12-20-medium.jpg"
    "https://img.kiosko.net/2025/12/20/es/marca.750.jpg" "now").2.1 (by decide)

/-! ### C4: the retry policy -/

theorem withRetryGo_spec (fn : Nat → Except HttpFailure α) (tries base : Nat) :
    ∀ rem i last sleeps res ss n, rem + i = tries → 0 < rem →
      withRetryGo fn tries base rem i last sleeps = (res, ss, n) →
      i < n ∧ n ≤ tries ∧
      ss = sleeps ++ (List.range' i (n - 1 - i)).map (fun j => base * 2 ^ j) ∧
      (∀ j, i ≤ j → j < n - 1 → ∃ e, fn j = .error e ∧ retriable e.status = true) ∧
      ((∃ a, fn (n - 1) = .ok a ∧ res = .ok a) ∨
       (∃ e, fn (n - 1) = .error e ∧ res = .error (some e) ∧
          (retriable e.status = true → n = tries))) := by
  intro rem
  induction rem with
  | zero => intro i last sleeps res ss n hsum h0 heq; omega
  | succ rem ih =>
    intro i last sleeps res ss n hsum h0 heq
    rw [withRetryGo] at heq
    cases hfn : fn i with
    | ok a =>
      rw [hfn] at heq
      simp only [Prod.mk.injEq] at heq
      obtain ⟨hres, hss, hn⟩ := heq
      subst hres hss hn
      refine ⟨by omega, by omega, ?_, by omega, ?_⟩
      · simp
      · exact Or.inl ⟨a, by simpa using hfn, rfl⟩
    | error e =>
      rw [hfn] at heq
      have heq2 : (if retriable e.status = false ∨ i = tries - 1 then
          ((Except.error (some e) : Except (Option HttpFailure) α), sleeps, i + 1)
        else withRetryGo fn tries base rem (i + 1) (some e)
          (sleeps ++ [base * 2 ^ i])) = (res, ss, n) := heq
      clear heq
      by_cases hstop : retriable e.status = false ∨ i = tries - 1
      · rw [if_pos hstop] at heq2
        simp only [Prod.mk.injEq] at heq2
        obtain ⟨hres, hss, hn⟩ := heq2
        subst hres hss hn
        refine ⟨by omega, by omega, by simp, by omega, ?_⟩
        refine Or.inr ⟨e, by simpa using hfn, rfl, fun hret => ?_⟩
        rcases hstop with hs | hs
        · rw [hret] at hs; exact absurd hs (by simp)
        · omega
      · rw [if_neg hstop] at heq2
        push_neg at hstop
        obtain ⟨hret, hne⟩ := hstop
        have hret' : retriable e.status = true := by
          cases hcase : retriable e.status
          · exact absurd hcase hret
          · rfl
        have hrem : 0 < rem := by omega
        obtain ⟨h1, h2, h3, h4, h5⟩ :=
          ih (i + 1) (some e) (sleeps ++ [base * 2 ^ i]) res ss n (by omega) hrem heq2
        refine ⟨by omega, h2, ?_, ?_, h5⟩
        · have hcnt : n - 1 - i = (n - 1 - (i + 1)) + 1 := by omega
          rw [h3, hcnt, List.range'_succ, List.map_cons]
          simp
        · intro j hij hjn
          rcases Nat.eq_or_lt_of_le hij with rfl | hlt
          · exact ⟨e, hfn, hret'⟩
          · exact h4 j hlt hjn

/-- C4: the HTTP retry policy.  With a positive configured attempt count, the
model re-invokes the operation only after retriable failures (connection-level
with no status, status 0, HTTP 429, or HTTP 5xx — JS `!status` also covers 0),
sleeping base × 2^attempt between consecutive attempts; it makes at most
`tries` attempts; a non-retriable failure (any other status, in particular
other 4xx) before the last slot ends the loop immediately with no further
attempt; and the outcome is always the result of the final attempt made — in
particular the last error is thrown after the final failed attempt. -/
theorem withRetry_policy (fn : Nat → Except HttpFailure α) (tries base : Nat)
    (htries : 0 < tries) :
    0 < (withRetry fn tries base).2.2 ∧
    (withRetry fn tries base).2.2 ≤ tries ∧
    (withRetry fn tries base).2.1 =
      (List.range ((withRetry fn tries base).2.2 - 1)).map (fun j => base * 2 ^ j) ∧
    (∀ j, j < (withRetry fn tries base).2.2 - 1 →
      ∃ e, fn j = .error e ∧ retriable e.status = true) ∧
    ((withRetry fn tries base).2.2 < tries →
      ∀ e, fn ((withRetry fn tries base).2.2 - 1) = .error e → retriable e.status = false) ∧
    ((∃ a, fn ((withRetry fn tries base).2.2 - 1) = .ok a ∧
        (withRetry fn tries base).1 = .ok a) ∨
     (∃ e, fn ((withRetry fn tries base).2.2 - 1) = .error e ∧
        (withRetry fn tries base).1 = .error (some e))) := by
  rcases hr : withRetry fn tries base with ⟨res, ss, n⟩
  dsimp only
  have hgo : withRetryGo fn tries base tries 0 none [] = (res, ss, n) := hr
  obtain ⟨h1, h2, h3, h4, h5⟩ :=
    withRetryGo_spec fn tries base tries 0 none [] res ss n (by omega) htries hgo
  refine ⟨h1, h2, ?_, ?_, ?_, ?_⟩
  · simpa [List.range_eq_range'] using h3
  · intro j hj
    exact h4 j (Nat.zero_le j) hj
  · intro hlt e he
    rcases h5 with ⟨a, ha, _⟩ | ⟨e2, he2, _, himp⟩
    · rw [he] at ha
      exact absurd ha (by simp)
    · rw [he] at he2
      injection he2 with h12
      subst h12
      cases hcase : retriable e.status
      · rfl
      · exact absurd (himp hcase) (by omega)
  · rcases h5 with ⟨a, ha, hres⟩ | ⟨e, he, hres, _⟩
    · exact Or.inl ⟨a, ha, hres⟩
    · exact Or.inr ⟨e, he, hres⟩

/-- Witness for C4: tries = 3, base = 650, failures 500 then 429 then success;
the policy instance evaluates on it. -/
theorem withRetry_policy_witness :
    0 < (withRetry fnRetryFix 3 650).2.2 ∧
    (withRetry fnRetryFix 3 650).2.1 =
      (List.range ((withRetry fnRetryFix 3 650).2.2 - 1)).map (fun j => 650 * 2 ^ j) :=
  ⟨(withRetry_policy fnRetryFix 3 650 (by norm_num)).1,
   (withRetry_policy fnRetryFix 3 650 (by norm_num)).2.2.1⟩

/-! ### C7: WebP sniffing -/

theorem lor_small (a b k : Nat) (ha : a < 2 ^ k) : a ||| (b <<< k) = a + b * 2 ^ k := by
  apply Nat.eq_of_testBit_eq
  intro j
  rw [Nat.testBit_lor, Nat.testBit_shiftLeft,
    show a + b * 2 ^ k = 2 ^ k * b + a by ring, Nat.testBit_mul_pow_two_add b ha j]
  rcases lt_or_le j k with hj | hj
  · have h2 : ¬ (k ≤ j) := by omega
    simp [h2, hj]
  · have h2 : ¬ (j < k) := by omega
    have h3 : a.testBit j = false :=
      Nat.testBit_lt_two_pow (lt_of_lt_of_le ha (Nat.pow_le_pow_right (by norm_num) hj))
    simp [h2, hj, h3]

/-- The JS 24-bit little-endian read `b0 | (b1 << 8) | (b2 << 16)` equals the
positional value `b0 + b1·256 + b2·2^16` on byte operands. -/
theorem lor24_eq (a b c : Nat) (ha : a < 256) (hb : b < 256) :
    a ||| (b <<< 8) ||| (c <<< 16) = a + b * 256 + c * 65536 := by
  have h1 : a ||| (b <<< 8) = a + b * 256 := by simpa using lor_small a b 8 (by omega)
  rw [h1]
  simpa using lor_small (a + b * 256) c 16 (by omega)

/-- In-bounds buffer reads of a byte-valued buffer are bytes. -/
theorem byteAt_lt (buf : List Nat) (hbytes : ∀ b ∈ buf, b < 256) (i : Nat)
    (hi : i < buf.length) : byteAt buf i < 256 := by
  unfold byteAt byteAtD
  rw [List.getD_eq_getElem _ _ hi]
  exact hbytes _ (List.getElem_mem hi)

theorem webpLoop_finds (buf : List Nat) (i0 : Nat)
    (h16 : i0 + 16 < buf.length)
    (htag : asciiSlice buf i0 (i0 + 4) = tagBytes "VP8X") :
    ∀ fuel i, i ≤ i0 → i0 + 1 ≤ i + fuel →
      (∀ j, i ≤ j → j < i0 → asciiSlice buf j (j + 4) ≠ tagBytes "VP8X") →
      webpLoop buf i fuel = some
        ⟨1 + (byteAt buf (i0 + 8) ||| (byteAt buf (i0 + 9) <<< 8) ||| (byteAt buf (i0 + 10) <<< 16)),
         1 + (byteAt buf (i0 + 11) ||| (byteAt buf (i0 + 12) <<< 8) ||| (byteAt buf (i0 + 13) <<< 16))⟩ := by
  intro fuel
  induction fuel with
  | zero => intro i hi hfuel hnone; omega
  | succ fuel ih =>
    intro i hi hfuel hnone
    rcases Nat.eq_or_lt_of_le hi with rfl | hlt
    · rw [webpLoop, if_pos h16, if_pos ⟨htag, by omega⟩]
    · rw [webpLoop]
      have hguard : i + 16 < buf.length := by omega
      rw [if_pos hguard]
      have hne : ¬ (asciiSlice buf i (i + 4) = tagBytes "VP8X" ∧ i + 14 < buf.length) :=
        fun hc => hnone i le_rfl hlt hc.1
      rw [if_neg hne]
      exact ih (i + 1) (by omega) (by omega) (fun j hj hjlt => hnone j (by omega) hjlt)

/-- Fuel adequacy for the WebP chunk scan: once the remaining fuel covers the
buffer, more fuel does not change the result, so `fuel = buf.length` (used by
`getWebpSize`, whose scan starts at index 12) reproduces the unbounded JS loop. -/
theorem webpLoop_fuel_stable (buf : List Nat) :
    ∀ fuel i, buf.length ≤ i + fuel →
      webpLoop buf i (fuel + 1) = webpLoop buf i fuel := by
  intro fuel
  induction fuel with
  | zero =>
    intro i hlen
    simp only [webpLoop]
    rw [if_neg (by omega)]
  | succ fuel ih =>
    intro i hlen
    conv_lhs => rw [webpLoop]
    conv_rhs => rw [webpLoop]
    by_cases hguard : i + 16 < buf.length
    · rw [if_pos hguard, if_pos hguard]
      by_cases htag : asciiSlice buf i (i + 4) = tagBytes "VP8X" ∧ i + 14 < buf.length
      · rw [if_pos htag, if_pos htag]
      · rw [if_neg htag, if_neg htag, ih (i + 1) (by omega)]
    · rw [if_neg hguard, if_neg hguard]

theorem webpLoop_none (buf : List Nat)
    (habs : ∀ j, 12 ≤ j → j + 16 < buf.length → asciiSlice buf j (j + 4) ≠ tagBytes "VP8X") :
    ∀ fuel i, 12 ≤ i → webpLoop buf i fuel = none := by
  intro fuel
  induction fuel with
  | zero => intro i hi; rfl
  | succ fuel ih =>
    intro i hi
    rw [webpLoop]
    by_cases hguard : i + 16 < buf.length
    · rw [if_pos hguard,
        if_neg (fun hc : asciiSlice buf i (i + 4) = tagBytes "VP8X" ∧ i + 14 < buf.length =>
          habs i hi hguard hc.1)]
      exact ih (i + 1) (by omega)
    · rw [if_neg hguard]

/-- C7: for a byte buffer with a valid `RIFF`…`WEBP` container, if a `VP8X`
chunk tag occurs (first at offset `i0` within the scanned range), the prober
reports width = stored 24-bit little-endian value + 1 and height = the next
24-bit little-endian value + 1; with no `VP8X` tag anywhere in the scanned
range it reports unknown dimensions (`none`). -/
theorem webp_vp8x_sniffing (buf : List Nat) (hbytes : ∀ b ∈ buf, b < 256)
    (hlen : ¬ buf.length < 30)
    (hriff : asciiSlice buf 0 4 = tagBytes "RIFF")
    (hwebp : asciiSlice buf 8 12 = tagBytes "WEBP") :
    (∀ i0, 12 ≤ i0 → i0 + 16 < buf.length →
      asciiSlice buf i0 (i0 + 4) = tagBytes "VP8X" →
      (∀ j, 12 ≤ j → j < i0 → asciiSlice buf j (j + 4) ≠ tagBytes "VP8X") →
      getWebpSize buf = some
        ⟨1 + (byteAt buf (i0 + 8) + byteAt buf (i0 + 9) * 256 + byteAt buf (i0 + 10) * 65536),
         1 + (byteAt buf (i0 + 11) + byteAt buf (i0 + 12) * 256 + byteAt buf (i0 + 13) * 65536)⟩) ∧
    ((∀ j, 12 ≤ j → j + 16 < buf.length → asciiSlice buf j (j + 4) ≠ tagBytes "VP8X") →
      getWebpSize buf = none) := by
  constructor
  · intro i0 h12 h16 htag hfirst
    unfold getWebpSize
    rw [if_neg hlen, if_neg (by simp [hriff]), if_neg (by simp [hwebp])]
    rw [webpLoop_finds buf i0 h16 htag buf.length 12 h12 (by omega) hfirst]
    rw [lor24_eq _ _ _ (byteAt_lt buf hbytes _ (by omega)) (byteAt_lt buf hbytes _ (by omega)),
      lor24_eq _ _ _ (byteAt_lt buf hbytes _ (by omega)) (byteAt_lt buf hbytes _ (by omega))]
  · intro habs
    unfold getWebpSize
    rw [if_neg hlen, if_neg (by simp [hriff]), if_neg (by simp [hwebp])]
    exact webpLoop_none buf habs buf.length 12 le_rfl

/-- Witness for C7 on a concrete 30-byte VP8X container (stored LE values
287 and 559, reported 288 × 560). -/
theorem webp_vp8x_sniffing_witness : getWebpSize wbufFix = some ⟨288, 560⟩ := by
  have h := (webp_vp8x_sniffing wbufFix (by decide) (by decide) (by decide) (by decide)).1
    12 (by norm_num) (by decide) (by decide)
    (fun j hj hjl => absurd hjl (by omega))
  rw [h]
  decide

/-! ### C8: JPEG sniffing totality and bounds-safety -/

theorem byteAtD_indep (d1 d2 : Nat) (buf : List Nat) (i : Nat) (hi : i < buf.length) :
    byteAtD d1 buf i = byteAtD d2 buf i := by
  unfold byteAtD
  rw [List.getD_eq_getElem _ _ hi, List.getD_eq_getElem _ _ hi]

theorem read16D_indep (d1 d2 : Nat) (buf : List Nat) (i : Nat) (hi : i + 1 < buf.length) :
    read16D d1 buf i = read16D d2 buf i := by
  unfold read16D
  rw [byteAtD_indep d1 d2 buf i (by omega), byteAtD_indep d1 d2 buf (i + 1) (by omega)]

/-- Every read of the JPEG marker walk is guarded: the walk's result does not
depend on the value substituted for out-of-bounds reads. -/
theorem jpegLoopD_indep (d1 d2 : Nat) (buf : List Nat) :
    ∀ fuel i, jpegLoopD d1 buf i fuel = jpegLoopD d2 buf i fuel := by
  intro fuel
  induction fuel with
  | zero => intro i; rfl
  | succ fuel ih =>
    intro i
    simp only [jpegLoopD]
    by_cases hguard : i + 9 < buf.length
    · rw [if_pos hguard, if_pos hguard,
        byteAtD_indep d1 d2 buf i (by omega),
        byteAtD_indep d1 d2 buf (i + 1) (by omega),
        read16D_indep d1 d2 buf (i + 2) (by omega),
        read16D_indep d1 d2 buf (i + 2 + 5) (by omega),
        read16D_indep d1 d2 buf (i + 2 + 3) (by omega),
        ih (i + 1), ih (i + 2 + read16D d2 buf (i + 2))]
    · rw [if_neg hguard, if_neg hguard]

/-- Fuel adequacy: once the remaining fuel covers the buffer, adding more fuel
does not change the walk, so `fuel = buf.length` (used by `getJpegSizeD`, whose
walk starts at index 2) reproduces the unbounded JS loop. -/
theorem jpegLoopD_fuel_stable (d : Nat) (buf : List Nat) :
    ∀ fuel i, buf.length ≤ i + fuel →
      jpegLoopD d buf i (fuel + 1) = jpegLoopD d buf i fuel := by
  intro fuel
  induction fuel with
  | zero =>
    intro i hlen
    simp only [jpegLoopD]
    rw [if_neg (by omega)]
  | succ fuel ih =>
    intro i hlen
    conv_lhs => rw [jpegLoopD]; dsimp only
    conv_rhs => rw [jpegLoopD]; dsimp only
    rw [ih (i + 1) (by omega), ih (i + 2 + read16D d buf (i + 2)) (by omega)]

/-- A `some` result of the marker walk always comes from a Start-Of-Frame
marker reached by the walk, with the dimensions read big-endian right after
its segment length field. -/
theorem jpegLoopD_some (buf : List Nat) :
    ∀ fuel i dm, jpegLoopD 0 buf i fuel = some dm →
      ∃ j, i ≤ j ∧ j + 9 < buf.length ∧ byteAt buf j = 0xff ∧
        isSOF (byteAt buf (j + 1)) = true ∧
        dm = ⟨read16 buf (j + 7), read16 buf (j + 5)⟩ := by
  intro fuel
  induction fuel with
  | zero => intro i dm h; exact absurd h (by simp [jpegLoopD])
  | succ fuel ih =>
    intro i dm h
    simp only [jpegLoopD] at h
    by_cases hguard : i + 9 < buf.length
    · rw [if_pos hguard] at h
      by_cases hff : byteAtD 0 buf i ≠ 0xff
      · rw [if_pos hff] at h
        obtain ⟨j, hj, rest⟩ := ih (i + 1) dm h
        exact ⟨j, by omega, rest⟩
      · rw [if_neg hff] at h
        push_neg at hff
        by_cases hstop : byteAtD 0 buf (i + 1) = 0xd9 ∨ byteAtD 0 buf (i + 1) = 0xda
        · rw [if_pos hstop] at h
          exact absurd h (by simp)
        · rw [if_neg hstop] at h
          by_cases hlen2 : i + 2 + 2 > buf.length
          · rw [if_pos hlen2] at h
            exact absurd h (by simp)
          · rw [if_neg hlen2] at h
            by_cases hlen3 : read16D 0 buf (i + 2) = 0 ∨
                i + 2 + read16D 0 buf (i + 2) > buf.length
            · rw [if_pos hlen3] at h
              exact absurd h (by simp)
            · rw [if_neg hlen3] at h
              by_cases hsof : isSOF (byteAtD 0 buf (i + 1)) = true ∧ i + 2 + 7 < buf.length
              · rw [if_pos hsof] at h
                refine ⟨i, le_rfl, hguard, hff, hsof.1, ?_⟩
                have harith1 : i + 2 + 5 = i + 7 := by omega
                have harith2 : i + 2 + 3 = i + 5 := by omega
                rw [harith1, harith2] at h
                exact (Option.some.inj h).symm
              · rw [if_neg hsof] at h
                obtain ⟨j, hj, rest⟩ := ih (i + 2 + read16D 0 buf (i + 2)) dm h
                exact ⟨j, by omega, rest⟩
    · rw [if_neg hguard] at h
      exact absurd h (by simp)

/-- C8: `getJpegSize` is a total function whose result does not depend on the
value used for out-of-bounds reads (every read is guarded), and it yields
dimensions only when the marker walk actually reached a Start-Of-Frame marker
before stopping — so on JPEG buffers where the walk stops (End-Of-Image,
Start-Of-Scan, truncation, or a bad segment length) without seeing an SOF, it
yields `none` rather than failing. -/
theorem jpeg_sniffing_safe (buf : List Nat) (d1 d2 : Nat) :
    getJpegSizeD d1 buf = getJpegSizeD d2 buf ∧
    (∀ dm, getJpegSize buf = some dm →
      ∃ j, j + 9 < buf.length ∧ byteAt buf j = 0xff ∧
        isSOF (byteAt buf (j + 1)) = true ∧
        dm = ⟨read16 buf (j + 7), read16 buf (j + 5)⟩) := by
  constructor
  · unfold getJpegSizeD
    by_cases h4 : buf.length < 4
    · rw [if_pos h4, if_pos h4]
    · rw [if_neg h4, if_neg h4,
        byteAtD_indep d1 d2 buf 0 (by omega), byteAtD_indep d1 d2 buf 1 (by omega),
        jpegLoopD_indep d1 d2 buf buf.length 2]
  · intro dm h
    unfold getJpegSize getJpegSizeD at h
    by_cases h4 : buf.length < 4
    · rw [if_pos h4] at h
      exact absurd h (by simp)
    · rw [if_neg h4] at h
      by_cases hsoi : byteAtD 0 buf 0 ≠ 0xff ∨ byteAtD 0 buf 1 ≠ 0xd8
      · rw [if_pos hsoi] at h
        exact absurd h (by simp)
      · rw [if_neg hsoi] at h
        obtain ⟨j, _, rest⟩ := jpegLoopD_some buf buf.length 2 dm h
        exact ⟨j, rest⟩

/-- Witness for C8 on a concrete 22-byte JPEG with an SOF0 segment. -/
theorem jpeg_sniffing_safe_witness :
    ∃ j, j + 9 < jbufFix.length ∧ byteAt jbufFix j = 0xff ∧
      isSOF (byteAt jbufFix (j + 1)) = true ∧
      (⟨512, 256⟩ : Dim) = ⟨read16 jbufFix (j + 7), read16 jbufFix (j + 5)⟩ :=
  (jpeg_sniffing_safe jbufFix 0 1).2 ⟨512, 256⟩ (by decide)

/-! ### C2: the curated-override strict date check -/

/-- C2 counterexample: a curated record whose URL spells the CDN host in
uppercase.  The date extractor's regex is case-insensitive, so the URL embeds
the date token 2025-12-19 ≠ 2025-12-20; but the strict-date guard
`imgUrl.includes("img.kiosko.net")` is case-sensitive, does not fire, and the
harvester yields a candidate (under a probe making the score pass) instead of
rejecting it. -/
theorem curated_strict_date_counterexample :
    extractKioskoDateFromUrl "https://IMG.KIOSKO.NET/2025/12/19/es/marca.750.jpg" =
      some "2025-12-19" ∧
    ("2025-12-19" : String) ≠ "2025-12-20" ∧
    fetchCoverFromTodayJson (fun _ _ => none) probeFix itemsUpperFix "marca" "2025-12-20"
        "docs/data/today.json" "docs/data/today.json" =
      some ⟨"https://IMG.KIOSKO.NET/2025/12/19/es/marca.750.jpg", none,
        "today.json:docs/data/today.json"⟩ := by
  refine ⟨by decide, by decide, by decide⟩

/-- C2 amended: the strict date check holds whenever the record's normalized
URL contains the substring `img.kiosko.net` as written (lowercase): if the
embedded date differs from the requested date, the harvester yields no
candidate for every probe oracle — i.e. the record is rejected before probing,
regardless of every other score component. -/
theorem curated_strict_date_amended (urlResolve : String → String → Option String)
    (items : List TodayHit) (publisherId dateStr todayPath todayPathRel : String)
    (hit : TodayHit) (su u kd : String)
    (hfind : items.find? (fun x => x.publisherId == publisherId && x.date == dateStr) =
      some hit)
    (hsrc : hit.sourceUrl = some su)
    (hsu : su ≠ "")
    (hnorm : normalizeUrl urlResolve su "https://img.kiosko.net/" = some u)
    (hk : strContains u "img.kiosko.net" = true)
    (hdate : extractKioskoDateFromUrl u = some kd)
    (hne : kd ≠ dateStr) :
    ∀ probe, fetchCoverFromTodayJson urlResolve probe items publisherId dateStr
      todayPath todayPathRel = none := by
  intro probe
  have hskip : skipStrictDate u dateStr = true := by
    unfold skipStrictDate kioskoDateMismatch
    rw [hk, hdate]
    simpa using hne
  unfold fetchCoverFromTodayJson
  rw [hfind]
  dsimp only
  rw [hsrc]
  dsimp only
  rw [if_neg hsu, hnorm]
  dsimp only
  rw [if_pos hskip]

/-- Witness for the amended C2 on a concrete lowercase-host record. -/
theorem curated_strict_date_amended_witness :
    fetchCoverFromTodayJson (fun _ _ => none) probeFix itemsLowerFix "marca" "2025-12-20"
      "docs/data/today.json" "docs/data/today.json" = none :=
  curated_strict_date_amended (fun _ _ => none) itemsLowerFix "marca" "2025-12-20"
    "docs/data/today.json" "docs/data/today.json"
    ⟨"marca", "2025-12-20", some "https://img.kiosko.net/2025/12/19/es/marca.750.jpg"⟩
    "https://img.kiosko.net/2025/12/19/es/marca.750.jpg"
    "https://img.kiosko.net/2025/12/19/es/marca.750.jpg" "2025-12-19"
    (by decide) (by decide) (by decide) (by decide) (by decide) (by decide) (by decide)
    probeFix

/-! ### C1: materialization at the final path -/

/-- C1 (the code evaluated at the failing input): one candidate whose URL ends
in `.jpg` downloads fully as a 7000-byte `image/jpeg` body, below the
8000-byte floor.  Because the URL carries an extension, the "temporary" path
already equals the deterministic final path (third conjunct), the body is
streamed directly to it, the size validation throws afterwards, and resolution
fails with the invalid 7000-byte file still present at the final path —
contradicting "no partial or invalid file is ever visible at the final path". -/
theorem invalid_download_remains_at_final_path :
    (fetchCover probeFix dlTooSmall "marca" "2025-12-20" "out" harvOneJpg []).2 =
      .error (allFailedMsg "marca" "2025-12-20" (some "Downloaded too small (7000)")) ∧
    fsGet (fetchCover probeFix dlTooSmall "marca" "2025-12-20" "out" harvOneJpg []).1
      "out/2025-12-20-medium.jpg" = some 7000 ∧
    "out" ++ "/" ++ "2025-12-20" ++ "-medium" ++
      extname (beforeQuery "https://cdn.example.com/cover.jpg") =
      "out/2025-12-20-medium.jpg" := by
  refine ⟨rfl, by decide, by decide⟩

/-! ### C3: the failure taxonomy -/

theorem uniqueByUrlGo_all_none (l : List (Option Candidate)) (hnone : ∀ x ∈ l, x = none) :
    ∀ seen, uniqueByUrlGo seen l = [] := by
  induction l with
  | nil => intro seen; rfl
  | cons x rest ih =>
    intro seen
    have hx : x = none := hnone x (List.mem_cons_self _ _)
    subst hx
    exact ih (fun y hy => hnone y (List.mem_cons_of_mem _ hy)) seen

theorem downloadImage_error (out : DlOutcome) (p : String) (st : FsState) (m : String)
    (h : dlFailMsg out = some m) : (downloadImage out p st).2 = .error m := by
  cases out with
  | err m2 =>
    simp only [dlFailMsg, Option.some.injEq] at h
    subst h
    rfl
  | resp ct0 len =>
    simp only [dlFailMsg] at h
    simp only [downloadImage]
    split_ifs at h ⊢ <;> simp_all

theorem fetchCoverLoop_all_fail (dl : String → DlOutcome) (pid dateStr outputDir : String) :
    ∀ cands st lastMsg,
      (∀ c ∈ cands, skipStrictDate c.url dateStr = false → dlFailMsg (dl c.url) ≠ none) →
      (fetchCoverLoop dl pid dateStr outputDir cands st lastMsg).2 =
        .error (allFailedMsg pid dateStr (lastCause dl dateStr cands lastMsg)) := by
  intro cands
  induction cands with
  | nil => intro st lastMsg hfail; rfl
  | cons c rest ih =>
    intro st lastMsg hfail
    by_cases hskip : skipStrictDate c.url dateStr = true
    · simp only [fetchCoverLoop]
      rw [if_pos hskip,
        ih st lastMsg (fun x hx hns => hfail x (List.mem_cons_of_mem _ hx) hns)]
      have hlc : lastCause dl dateStr (c :: rest) lastMsg =
          lastCause dl dateStr rest lastMsg := by
        unfold lastCause
        rw [List.filter_cons_of_neg (by simp [hskip])]
      rw [hlc]
    · have hskipf : skipStrictDate c.url dateStr = false := by
        simpa using hskip
      obtain ⟨m, hm⟩ : ∃ m, dlFailMsg (dl c.url) = some m := by
        have hne := hfail c (List.mem_cons_self _ _) hskipf
        cases hd : dlFailMsg (dl c.url)
        · exact absurd hd hne
        · exact ⟨_, rfl⟩
      simp only [fetchCoverLoop]
      rw [if_neg (by simp [hskipf])]
      rcases hdm : downloadImage (dl c.url)
          (outputDir ++ "/" ++ dateStr ++ "-medium" ++
            (if extname (beforeQuery c.url) = "" then ".img" else extname (beforeQuery c.url)))
          st with ⟨st2, res2⟩
      have hres2 : res2 = .error m := by
        have hder := downloadImage_error (dl c.url)
          (outputDir ++ "/" ++ dateStr ++ "-medium" ++
            (if extname (beforeQuery c.url) = "" then ".img" else extname (beforeQuery c.url)))
          st m hm
        rw [hdm] at hder
        exact hder
      subst hres2
      dsimp only
      rw [ih st2 (some m) (fun x hx hns => hfail x (List.mem_cons_of_mem _ hx) hns)]
      have hlc : lastCause dl dateStr (c :: rest) lastMsg =
          lastCause dl dateStr rest (some m) := by
        unfold lastCause
        rw [List.filter_cons_of_pos (by simp [hskipf])]
        cases hfl : rest.filter (fun x => !(skipStrictDate x.url dateStr)) with
        | nil => simp [hfl, hm]
        | cons d ds =>
          cases hgl : (d :: ds).getLast? with
          | none => exact absurd hgl (by simp)
          | some e => simp [hfl, List.getLast?_cons_cons, hgl]
      rw [hlc]

theorem coverNotFound_ne_allFailed (pid dateStr : String) (m : Option String) :
    coverNotFoundMsg pid dateStr ≠ allFailedMsg pid dateStr m := by
  intro h
  have hd := congrArg String.data h
  simp only [coverNotFoundMsg, allFailedMsg, String.data_append, List.cons_append] at hd
  rw [List.cons.injEq] at hd
  exact absurd hd.1 (by decide)

/-- C3 amended: when every harvester returns no candidate, `fetchCover` fails
with the `Cover not found` error, which is distinct from the aggregated
`All candidate downloads failed` error raised when candidates existed but
every (non-skipped) download failed; the aggregated error names the publisher,
the date and the last underlying cause — but not the attempt count. -/
theorem failure_taxonomy_amended (probe : String → Option ProbeMeta)
    (dl : String → DlOutcome) (pid dateStr outputDir : String)
    (harvested : List (Option Candidate)) (st : FsState) :
    ((∀ x ∈ harvested, x = none) →
      (fetchCover probe dl pid dateStr outputDir harvested st).2 =
        .error (coverNotFoundMsg pid dateStr)) ∧
    (∀ m, coverNotFoundMsg pid dateStr ≠ allFailedMsg pid dateStr m) ∧
    (∀ cands stL lastMsg,
      (∀ c ∈ cands, skipStrictDate c.url dateStr = false → dlFailMsg (dl c.url) ≠ none) →
      (fetchCoverLoop dl pid dateStr outputDir cands stL lastMsg).2 =
        .error (allFailedMsg pid dateStr (lastCause dl dateStr cands lastMsg))) := by
  refine ⟨?_, coverNotFound_ne_allFailed pid dateStr, ?_⟩
  · intro hnone
    unfold fetchCover uniqueByUrl
    rw [uniqueByUrlGo_all_none harvested hnone []]
    rfl
  · exact fetchCoverLoop_all_fail dl pid dateStr outputDir

/-- Witness for the amended C3: all six harvesters empty. -/
theorem failure_taxonomy_amended_witness :
    (fetchCover probeFix dlNotImage "marca" "2025-12-20" "out"
      [none, none, none, none, none, none] []).2 =
      .error (coverNotFoundMsg "marca" "2025-12-20") :=
  (failure_taxonomy_amended probeFix dlNotImage "marca" "2025-12-20" "out"
    [none, none, none, none, none, none] []).1 (by simp)

/-- C3 counterexample: two runs that differ in the number of download attempts
(one candidate vs two candidates, every download failing with the same cause)
produce literally identical aggregated error messages, so the error cannot be
naming the attempt count. -/
theorem failure_msg_names_no_attempt_count :
    (fetchCover probeFix dlNotImage "marca" "2025-12-20" "out" harvOneJpg []).2 =
      .error
        "All candidate downloads failed for marca (2025-12-20): Download not image (ct=text/html)" ∧
    (fetchCover probeFix dlNotImage "marca" "2025-12-20" "out" harvTwoJpg []).2 =
      .error
        "All candidate downloads failed for marca (2025-12-20): Download not image (ct=text/html)" := by
  refine ⟨rfl, rfl⟩

end SportsCovers
